import Mathlib

/-
Verification of the incremental VOD snapshot updater (update_vods.ts) and its
static frontend (frontend.js).

Shallow embedding notes:
- JSON timestamp fields (recorded_at, created_at) are string-or-number in the
  source; the claims under verification only exercise numeric epoch values, so
  they are modelled as Option Int.  For a number n, Number(new Date(n)) = n.
- An absent JSON key and a key explicitly set to the value undefined are
  modelled by the same Option value none.  The one JS construct that can tell
  them apart is object spread; the spread sites of the source are modelled by
  spreadDescriptive below, whose doc comment records the static key-shape facts
  that make the flat Option model exact.
- JS truthiness on strings: undefined and the empty string are both falsy
  (strFalsy below); a present non-empty string is truthy.
- Network effects are modelled by passing the responses as data: rawListing is
  the concatenation of the data arrays of all pages gathered by the pagination
  loop (source lines 266-280), and fi i is the value of
  (await fetchFileInfo(i)).map(mapFileInfoToStoredFile) for id i.  Every fetch
  in one run stamps filesFetchedAt with the then-current clock; the claims do
  not depend on intra-run clock drift, so one per-run value fetchNow is used.
-/

namespace Vault

/-- File attachment record, source type StoredFile (lines 164-172).  The
free-form metadata map is modelled as a key/value list. -/
structure StoredFile where
  fileId : Option String
  fileName : Option String
  fileSizeRaw : Option Int
  fileSize : Option String
  downloadUrl : Option String
  contentType : Option String
  metadata : List (String × String)
deriving DecidableEq

/-- Entry record, source type StoredVod (lines 174-184). -/
structure StoredVod where
  id : String
  title : Option String
  channel : Option String
  recorded_at : Option Int
  created_at : Option Int
  duration_seconds : Option Int
  twitch_id : Option String
  files : Option (List StoredFile)
  filesFetchedAt : Option String
deriving DecidableEq

/-- Snapshot meta header, source type Store.meta (lines 186-192). -/
structure Meta where
  generatedAt : String
  baseUrl : String
  targetUser : String
  total : Nat
deriving DecidableEq

/-- Persisted snapshot document, source type Store (lines 186-194). -/
structure Store where
  meta : Meta
  vods : List StoredVod
deriving DecidableEq

/-- Raw listing record as consumed by normalizeVod (lines 219-233).  The
source reads exactly the keys below from the any-typed record; created_at is
listed because a raw record may carry it, although normalizeVod never reads
it. -/
structure RawVod where
  ID : Option String
  title : Option String
  name : Option String
  channel : Option String
  twitch_channel : Option String
  created_at : Option Int
  twitch_createdAt : Option Int
  duration : Option Int
  twitch_duration : Option Int
  twitch_ID : Option String
deriving DecidableEq

/-- JS falsiness of an optional string value: undefined and the empty string
are falsy, every other string is truthy. -/
def strFalsy : Option String → Bool
  | none => true
  | some s => s == ""

/-- Login identity returned as j.data (line 112). -/
structure LoginData where
  ID : String
  username : String
deriving DecidableEq

/-- The parts of the login HTTP response observed by login (lines 97-113):
HTTP ok flag and status, and the error and data members of the parsed JSON
body. -/
structure LoginResp where
  ok : Bool
  status : Nat
  error : Option String
  data : Option LoginData
deriving DecidableEq

/-- login (lines 97-113), as a function of the configured TOTP value and the
server response.  Mirrors the source order: HTTP failure, then the
TOTP_REQUIRED-without-TOTP branch (j.error === "TOTP_REQUIRED" strict string
equality, !TOTP JS truthiness), then any truthy j.error, then missing
j.data. -/
def login (TOTP : Option String) (r : LoginResp) : Except String LoginData :=
  if r.ok = false then Except.error ("Login HTTP error: " ++ toString r.status)
  else if r.error == some "TOTP_REQUIRED" && strFalsy TOTP then
    Except.error "Login requires TOTP; set VAULT_TOTP and retry."
  else if strFalsy r.error = false then
    Except.error ("Login error: " ++ r.error.getD "")
  else if r.data.isNone then Except.error "Login: missing data"
  else Except.ok (r.data.getD ⟨"", ""⟩)

/-- Target user used for every listing request.  Source line 257 sets
targetUser := user.username unconditionally; the configured override
TARGET_USER_OVERRIDE (line 29) is read from the environment but never
consulted afterwards, which is why the parameter below is unused. -/
def computeTargetUser (TARGET_USER_OVERRIDE : Option String)
    (loggedInUsername : String) : String :=
  loggedInUsername

/-- normalizeVod (lines 219-233).  Rejects a record with falsy ID; otherwise
picks each field by the nullish-coalescing chains of the source:
title ?? name, channel ?? twitch_channel, twitch_createdAt alone,
twitch_duration ?? duration, twitch_ID alone.  It never sets recorded_at,
files or filesFetchedAt. -/
def normalizeVod (v : RawVod) : Option StoredVod :=
  match v.ID with
  | none => none
  | some i =>
    if i == "" then none
    else some
      { id := i
        title := v.title <|> v.name
        channel := v.channel <|> v.twitch_channel
        recorded_at := none
        created_at := v.twitch_createdAt
        duration_seconds := v.twitch_duration <|> v.duration
        twitch_id := v.twitch_ID
        files := none
        filesFetchedAt := none }

/-- The normalized listing: the raw records of all pages run through
normalizeVod, rejected records dropped (lines 273-277). -/
def normalizeAll (raws : List RawVod) : List StoredVod :=
  raws.filterMap normalizeVod

/-- needsFileInfo (lines 244-249).  JS truthiness: !v.files is true exactly
for a missing list, v.files.length === 0 for an empty one, and
!v.filesFetchedAt for a missing or empty-string timestamp. -/
def needsFileInfo : Option StoredVod → Bool
  | none => true
  | some v =>
    match v.files with
    | none => true
    | some fs => fs.isEmpty || strFalsy v.filesFetchedAt

/-- vods of an optional store, existing?.vods ?? [] (line 286). -/
def priorVods : Option Store → List StoredVod
  | none => []
  | some s => s.vods

/-- byIdSet (lines 210-217): the ids of the prior snapshot.  The source
builds a JS Set, used only through Set.has; a list of ids with contains has
the same membership behaviour. -/
def byIdSet (store : Option Store) : List String :=
  (priorVods store).map (fun v => v.id)

/-- The merged collection mergedById (line 285), modelled as a list of
entries with JS Map insertion-order semantics.  Every set call of the source
uses the key v.id of the stored value, so the key is kept inside the entry. -/
def mapGet (m : List StoredVod) (i : String) : Option StoredVod :=
  m.find? (fun y => y.id == i)

/-- Map.set: replace the value in place if the key exists (keeping its
position), otherwise append. -/
def mapSet (m : List StoredVod) (x : StoredVod) : List StoredVod :=
  if m.any (fun y => y.id == x.id) then
    m.map (fun y => if y.id == x.id then x else y)
  else m ++ [x]

/-- Seeding of mergedById from the prior snapshot (line 286). -/
def seedList (l : List StoredVod) : List StoredVod :=
  l.foldl mapSet []

/-- Result of the JS object spread { ...old, ...v } at source lines 239, 298
and 302, where v is a normalizeVod result and old an optional prior entry.
JS spread copies every own key of v, including keys whose value is undefined;
normalizeVod always defines the keys id, title, channel, created_at,
duration_seconds and twitch_id of its result (possibly with value undefined)
and never defines recorded_at, files or filesFetchedAt, so exactly those
three keys fall through to old.  Spreading an undefined old is a no-op. -/
def spreadDescriptive (old : Option StoredVod) (v : StoredVod) : StoredVod :=
  { id := v.id
    title := v.title
    channel := v.channel
    recorded_at := old.bind (fun o => o.recorded_at)
    created_at := v.created_at
    duration_seconds := v.duration_seconds
    twitch_id := v.twitch_id
    files := old.bind (fun o => o.files)
    filesFetchedAt := old.bind (fun o => o.filesFetchedAt) }

/-- mergeVodPreservingFiles (lines 235-242), for a fresh argument of the
normalizeVod shape.  The fresh.files === undefined check of the source is
always true for that shape, and the spread already leaves files at oldV.files,
so the function reduces to the plain spread.  The source defines this function
but main does not call it; the live merge sites (lines 298 and 302) inline the
same spread. -/
def mergeVodPreservingFiles : Option StoredVod → StoredVod → StoredVod
  | none, fresh => fresh
  | some o, fresh => spreadDescriptive (some o) fresh

/-- withFiles (line 298): { ...old, ...v, files, filesFetchedAt: now }. -/
def fetchMerge (old : Option StoredVod) (v : StoredVod)
    (fi : String → List StoredFile) (now : String) : StoredVod :=
  { spreadDescriptive old v with
      files := some (fi v.id)
      filesFetchedAt := some now }

/-- keepFiles (line 302):
{ ...old, ...v, files: old.files, filesFetchedAt: old.filesFetchedAt }. -/
def keepMerge (p : StoredVod) (v : StoredVod) : StoredVod :=
  { spreadDescriptive (some p) v with
      files := p.files
      filesFetchedAt := p.filesFetchedAt }

/-- State threaded through the merge loop of main (lines 285-305), extended
with the list of ids passed to fetchFileInfo, in call order, so that the
fetch decisions are observable. -/
structure LoopState where
  mergedById : List StoredVod
  newCount : Nat
  refreshedCount : Nat
  fetched : List String
deriving DecidableEq

/-- One iteration of the merge loop (lines 290-305). -/
def processVod (seen : List String) (fi : String → List StoredFile)
    (fetchNow : String) (st : LoopState) (v : StoredVod) : LoopState :=
  let old := mapGet st.mergedById v.id
  let mustFetch := needsFileInfo old || !(seen.contains v.id)
  if mustFetch then
    { mergedById := mapSet st.mergedById (fetchMerge old v fi fetchNow)
      newCount := if seen.contains v.id then st.newCount else st.newCount + 1
      refreshedCount :=
        if seen.contains v.id then st.refreshedCount + 1 else st.refreshedCount
      fetched := st.fetched ++ [v.id] }
  else
    match old with
    | some p => { st with mergedById := mapSet st.mergedById (keepMerge p v) }
    | none => st

/-- The merge loop over the whole normalized listing. -/
def runLoop (seen : List String) (fi : String → List StoredFile)
    (fetchNow : String) : LoopState → List StoredVod → LoopState
  | st, [] => st
  | st, v :: vs => runLoop seen fi fetchNow (processVod seen fi fetchNow st v) vs

/-- Lines 261-305: load the prior snapshot, seed mergedById from it, and run
the merge loop over the normalized listing. -/
def runLoopResult (prior : Option Store) (raws : List RawVod)
    (fi : String → List StoredFile) (fetchNow : String) : LoopState :=
  runLoop (byIdSet prior) fi fetchNow
    ⟨seedList (priorVods prior), 0, 0, []⟩ (normalizeAll raws)

/-- The ids fetchFileInfo was called with during a run, in call order. -/
def fetchedIds (prior : Option Store) (raws : List RawVod)
    (fi : String → List StoredFile) (fetchNow : String) : List String :=
  (runLoopResult prior raws fi fetchNow).fetched

/-- Sort key of an entry, Number(new Date(a.recorded_at ?? a.created_at)) at
lines 311-312; none stands for the NaN of an absent timestamp. -/
def vodKey (v : StoredVod) : Option Int :=
  v.recorded_at <|> v.created_at

/-- The comparator (a, b) => tb - ta of line 310-314 allows a to precede b
when the comparator value is not positive; a NaN comparator value is treated
as zero by Array.prototype.sort, so a pair with an absent key is always in
order. -/
def inOrderDesc (a b : StoredVod) : Bool :=
  match vodKey a, vodKey b with
  | some x, some y => y ≤ x
  | _, _ => true

/-- Stable descending insertion step for the sort of line 310. -/
def insertDesc (x : StoredVod) : List StoredVod → List StoredVod
  | [] => [x]
  | y :: ys => if inOrderDesc x y then x :: y :: ys else y :: insertDesc x ys

/-- The sort of lines 310-314.  Array.prototype.sort is stable; for a
consistent comparator a stable insertion sort produces the identical
sequence. -/
def sortVods (l : List StoredVod) : List StoredVod :=
  l.foldr insertDesc []

/-- main (lines 251-328) as a function of the configuration, the login
identity, the prior snapshot, the listing and file_info responses and the two
clock readings (per-fetch time and generatedAt time). -/
def runMain (BASE loggedInUsername : String)
    (TARGET_USER_OVERRIDE : Option String) (prior : Option Store)
    (raws : List RawVod) (fi : String → List StoredFile)
    (fetchNow genNow : String) : Store :=
  let targetUser := computeTargetUser TARGET_USER_OVERRIDE loggedInUsername
  let res := runLoopResult prior raws fi fetchNow
  let mergedList := sortVods res.mergedById
  { meta :=
      { generatedAt := genNow
        baseUrl := BASE
        targetUser := targetUser
        total := mergedList.length }
    vods := mergedList }

/-- The ids of a merged collection. -/
def idsOf (m : List StoredVod) : List String :=
  m.map (fun v => v.id)

/-- The per-entry merge result dictated by the decision rule: fetch when
needsFileInfo holds of the prior entry, keep otherwise. -/
def mergeSpec (po : Option StoredVod) (v : StoredVod)
    (fi : String → List StoredFile) (now : String) : StoredVod :=
  match po with
  | none => fetchMerge none v fi now
  | some p =>
    if needsFileInfo (some p) then fetchMerge (some p) v fi now
    else keepMerge p v

/-- The fetch condition exactly as claim C1 words it: no prior entry, or a
missing or empty prior file list, or a prior entry with files but no
filesFetchedAt timestamp. -/
def claimMustFetch : Option StoredVod → Bool
  | none => true
  | some p =>
    match p.files with
    | none => true
    | some fs => fs.isEmpty || p.filesFetchedAt == none

theorem idsOf_cons (v : StoredVod) (m : List StoredVod) :
    idsOf (v :: m) = v.id :: idsOf m := rfl

theorem idsOf_append (m m' : List StoredVod) :
    idsOf (m ++ m') = idsOf m ++ idsOf m' := by
  simp [idsOf]

theorem mapGet_eq_none_iff {m : List StoredVod} {i : String} :
    mapGet m i = none ↔ i ∉ idsOf m := by
  simp [mapGet, List.find?_eq_none, idsOf, List.mem_map]

theorem mem_of_mapGet {m : List StoredVod} {i : String} {w : StoredVod}
    (h : mapGet m i = some w) : w ∈ m ∧ w.id = i := by
  refine ⟨List.mem_of_find?_eq_some h, ?_⟩
  simpa using List.find?_some h

theorem id_unique {m : List StoredVod} (hnd : (idsOf m).Nodup)
    {y z : StoredVod} (hy : y ∈ m) (hz : z ∈ m) (h : y.id = z.id) : y = z :=
  List.inj_on_of_nodup_map hnd hy hz h

theorem mapGet_of_mem {m : List StoredVod} (hnd : (idsOf m).Nodup)
    {w : StoredVod} (hw : w ∈ m) : mapGet m w.id = some w := by
  cases h : mapGet m w.id with
  | none =>
    exact absurd (List.mem_map_of_mem (fun v => v.id) hw) (mapGet_eq_none_iff.mp h)
  | some z =>
    obtain ⟨hzm, hzi⟩ := mem_of_mapGet h
    exact congrArg some (id_unique hnd hzm hw hzi)

theorem mapSet_of_any_true {m : List StoredVod} {x : StoredVod}
    (h : m.any (fun y => y.id == x.id) = true) :
    mapSet m x = m.map (fun y => if y.id == x.id then x else y) := by
  simp [mapSet, h]

theorem mapSet_of_any_false {m : List StoredVod} {x : StoredVod}
    (h : m.any (fun y => y.id == x.id) = false) :
    mapSet m x = m ++ [x] := by
  simp [mapSet, h]

theorem any_id_iff {m : List StoredVod} {i : String} :
    m.any (fun y => y.id == i) = true ↔ i ∈ idsOf m := by
  simp [List.any_eq_true, idsOf, List.mem_map]

theorem idsOf_replace {m : List StoredVod} {x : StoredVod} :
    idsOf (m.map (fun y => if y.id == x.id then x else y)) = idsOf m := by
  unfold idsOf
  rw [List.map_map]
  apply List.map_congr_left
  intro y _
  by_cases hyx : y.id = x.id <;> simp [Function.comp, hyx]

theorem mapGet_mapSet_self (m : List StoredVod) (x : StoredVod) :
    mapGet (mapSet m x) x.id = some x := by
  cases h : m.any (fun y => y.id == x.id) with
  | true =>
    rw [mapSet_of_any_true h]
    unfold mapGet
    rw [List.find?_map]
    have hp : ((fun y : StoredVod => y.id == x.id) ∘
        (fun y => if y.id == x.id then x else y)) = fun y => y.id == x.id := by
      funext y
      by_cases hy : y.id = x.id <;> simp [Function.comp, hy]
    rw [hp]
    have hsome : (m.find? (fun y => y.id == x.id)).isSome :=
      List.find?_isSome.mpr (by simpa using List.any_eq_true.mp h)
    obtain ⟨y0, hy0⟩ := Option.isSome_iff_exists.mp hsome
    rw [hy0]
    have hy0id : y0.id = x.id := by simpa using List.find?_some hy0
    simp [hy0id]
  | false =>
    rw [mapSet_of_any_false h]
    unfold mapGet
    have hnone : m.find? (fun y => y.id == x.id) = none := by
      refine List.find?_eq_none.mpr ?_
      intro y hy
      have := (List.any_eq_false.mp h) y hy
      simpa using this
    rw [List.find?_append, hnone]
    simp [List.find?]

theorem mapGet_mapSet_ne (m : List StoredVod) (x : StoredVod) {j : String}
    (hj : j ≠ x.id) : mapGet (mapSet m x) j = mapGet m j := by
  cases h : m.any (fun y => y.id == x.id) with
  | true =>
    rw [mapSet_of_any_true h]
    unfold mapGet
    rw [List.find?_map]
    have hp : ((fun y : StoredVod => y.id == j) ∘
        (fun y => if y.id == x.id then x else y)) = fun y => y.id == j := by
      funext y
      by_cases hy : y.id = x.id <;> simp [Function.comp, hy]
    rw [hp]
    cases hf : m.find? (fun y => y.id == j) with
    | none => rfl
    | some y0 =>
      have h1 : y0.id = j := by simpa using List.find?_some hf
      have h2 : ¬(y0.id = x.id) := by rw [h1]; exact hj
      simp [h2]
  | false =>
    rw [mapSet_of_any_false h]
    unfold mapGet
    rw [List.find?_append]
    cases hf : m.find? (fun y => y.id == j) with
    | none =>
      simp [List.find?, beq_eq_false_iff_ne.mpr (fun hc => hj hc.symm)]
    | some y0 => rfl

theorem idsOf_mapSet_mem {m : List StoredVod} {x : StoredVod} {j : String} :
    j ∈ idsOf (mapSet m x) ↔ j ∈ idsOf m ∨ j = x.id := by
  cases h : m.any (fun y => y.id == x.id) with
  | true =>
    rw [mapSet_of_any_true h, idsOf_replace]
    have hx : x.id ∈ idsOf m := any_id_iff.mp h
    constructor
    · exact Or.inl
    · rintro (hj | rfl)
      · exact hj
      · exact hx
  | false =>
    rw [mapSet_of_any_false h, idsOf_append]
    simp [idsOf]

theorem idsOf_mapSet_nodup {m : List StoredVod} {x : StoredVod}
    (h : (idsOf m).Nodup) : (idsOf (mapSet m x)).Nodup := by
  cases ha : m.any (fun y => y.id == x.id) with
  | true => rw [mapSet_of_any_true ha, idsOf_replace]; exact h
  | false =>
    rw [mapSet_of_any_false ha, idsOf_append]
    have hx : x.id ∉ idsOf m := by
      intro hmem
      rw [← any_id_iff] at hmem
      simp [ha] at hmem
    rw [List.nodup_append]
    refine ⟨h, by simp [idsOf], ?_⟩
    intro a ha2 hax
    have hax2 : a = x.id := by simpa [idsOf] using hax
    exact hx (hax2 ▸ ha2)

theorem mapSet_eq_self {m : List StoredVod} (hnd : (idsOf m).Nodup)
    {x : StoredVod} (hx : mapGet m x.id = some x) : mapSet m x = m := by
  obtain ⟨hxm, _⟩ := mem_of_mapGet hx
  have ha : m.any (fun y => y.id == x.id) = true :=
    any_id_iff.mpr (List.mem_map_of_mem (fun v => v.id) hxm)
  rw [mapSet_of_any_true ha]
  have hcongr : ∀ y ∈ m, (if y.id == x.id then x else y) = y := by
    intro y hy
    by_cases h : y.id = x.id
    · simp only [h, beq_self_eq_true, if_true]
      exact id_unique hnd hxm hy h.symm
    · simp [h]
  calc m.map (fun y => if y.id == x.id then x else y)
      = m.map (fun y => y) := List.map_congr_left hcongr
    _ = m := by simp

theorem seed_go_nodup (l : List StoredVod) :
    ∀ acc, (idsOf acc).Nodup → (idsOf (l.foldl mapSet acc)).Nodup := by
  induction l with
  | nil => intro acc h; simpa using h
  | cons v vs ih => intro acc h; exact ih _ (idsOf_mapSet_nodup h)

theorem seedList_nodup (l : List StoredVod) : (idsOf (seedList l)).Nodup :=
  seed_go_nodup l [] (by simp [idsOf])

theorem seed_go_mem (l : List StoredVod) :
    ∀ acc j, j ∈ idsOf (l.foldl mapSet acc) ↔ j ∈ idsOf acc ∨ j ∈ idsOf l := by
  induction l with
  | nil => intro acc j; simp [idsOf]
  | cons v vs ih =>
    intro acc j
    rw [List.foldl_cons, ih, idsOf_mapSet_mem, idsOf_cons, List.mem_cons]
    tauto

theorem seedList_mem (l : List StoredVod) (j : String) :
    j ∈ idsOf (seedList l) ↔ j ∈ idsOf l := by
  have h := seed_go_mem l [] j
  simpa [seedList, idsOf] using h

theorem seed_go_eq (l : List StoredVod) :
    ∀ acc, (idsOf (acc ++ l)).Nodup → l.foldl mapSet acc = acc ++ l := by
  induction l with
  | nil => intro acc _; simp
  | cons v vs ih =>
    intro acc h
    rw [List.foldl_cons]
    have hv : v.id ∉ idsOf acc := by
      rw [idsOf_append, List.nodup_append] at h
      intro hmem
      exact h.2.2 hmem (by simp [idsOf_cons])
    have hset : mapSet acc v = acc ++ [v] := by
      apply mapSet_of_any_false
      cases ha : acc.any (fun y => y.id == v.id) with
      | false => rfl
      | true => exact absurd (any_id_iff.mp ha) hv
    rw [hset, ih (acc ++ [v]) (by simpa using h)]
    simp

theorem seedList_eq_self {l : List StoredVod} (h : (idsOf l).Nodup) :
    seedList l = l := by
  have := seed_go_eq l [] (by simpa using h)
  simpa [seedList] using this

theorem fetchMerge_id (old : Option StoredVod) (v : StoredVod)
    (fi : String → List StoredFile) (now : String) :
    (fetchMerge old v fi now).id = v.id := rfl

theorem keepMerge_id (p v : StoredVod) : (keepMerge p v).id = v.id := rfl

theorem mergeSpec_id (po : Option StoredVod) (v : StoredVod)
    (fi : String → List StoredFile) (now : String) :
    (mergeSpec po v fi now).id = v.id := by
  cases po with
  | none => rfl
  | some p =>
    simp only [mergeSpec]
    split <;> rfl

theorem contains_eq_true_iff {l : List String} {a : String} :
    l.contains a = true ↔ a ∈ l := by
  simp [List.elem_iff]

theorem runLoop_cons (seen : List String) (fi : String → List StoredFile)
    (now : String) (st : LoopState) (v : StoredVod) (vs : List StoredVod) :
    runLoop seen fi now st (v :: vs)
      = runLoop seen fi now (processVod seen fi now st v) vs := rfl

theorem runLoop_append (seen : List String) (fi : String → List StoredFile)
    (now : String) (as bs : List StoredVod) :
    ∀ st, runLoop seen fi now st (as ++ bs)
      = runLoop seen fi now (runLoop seen fi now st as) bs := by
  induction as with
  | nil => intro st; rfl
  | cons v vs ih => intro st; rw [List.cons_append, runLoop_cons, runLoop_cons, ih]

theorem processVod_get_ne (seen : List String) (fi : String → List StoredFile)
    (now : String) (st : LoopState) (v : StoredVod) {j : String} (hj : j ≠ v.id) :
    mapGet (processVod seen fi now st v).mergedById j = mapGet st.mergedById j := by
  simp only [processVod]
  split
  · exact mapGet_mapSet_ne _ _ hj
  · split
    · exact mapGet_mapSet_ne _ _ hj
    · rfl

theorem processVod_fetched_cases (seen : List String) (fi : String → List StoredFile)
    (now : String) (st : LoopState) (v : StoredVod) :
    (processVod seen fi now st v).fetched = st.fetched ∨
    (processVod seen fi now st v).fetched = st.fetched ++ [v.id] := by
  simp only [processVod]
  split
  · right; rfl
  · split
    · left; rfl
    · left; rfl

theorem runLoop_get_ne (seen : List String) (fi : String → List StoredFile)
    (now : String) (vs : List StoredVod) :
    ∀ st {j : String}, (∀ v ∈ vs, v.id ≠ j) →
      mapGet (runLoop seen fi now st vs).mergedById j = mapGet st.mergedById j := by
  induction vs with
  | nil => intro st j _; rfl
  | cons v vs ih =>
    intro st j hne
    rw [runLoop_cons, ih _ (fun w hw => hne w (List.mem_cons_of_mem v hw))]
    exact processVod_get_ne _ _ _ _ _ (fun hc => hne v (List.mem_cons_self v vs) hc.symm)

theorem runLoop_fetched_ne (seen : List String) (fi : String → List StoredFile)
    (now : String) (vs : List StoredVod) :
    ∀ st {j : String}, (∀ v ∈ vs, v.id ≠ j) →
      (j ∈ (runLoop seen fi now st vs).fetched ↔ j ∈ st.fetched) := by
  induction vs with
  | nil => intro st j _; exact Iff.rfl
  | cons v vs ih =>
    intro st j hne
    rw [runLoop_cons, ih _ (fun w hw => hne w (List.mem_cons_of_mem v hw))]
    have hj : j ≠ v.id := fun hc => hne v (List.mem_cons_self v vs) hc.symm
    rcases processVod_fetched_cases seen fi now st v with h | h
    · rw [h]
    · rw [h]; simp [List.mem_append, hj]

theorem processVod_ids_mem (seen : List String) (fi : String → List StoredFile)
    (now : String) (st : LoopState) (v : StoredVod) {j : String}
    (hj : j ∈ idsOf st.mergedById) :
    j ∈ idsOf (processVod seen fi now st v).mergedById := by
  simp only [processVod]
  split
  · exact idsOf_mapSet_mem.mpr (Or.inl hj)
  · split
    · exact idsOf_mapSet_mem.mpr (Or.inl hj)
    · exact hj

theorem processVod_ids_nodup (seen : List String) (fi : String → List StoredFile)
    (now : String) (st : LoopState) (v : StoredVod)
    (h : (idsOf st.mergedById).Nodup) :
    (idsOf (processVod seen fi now st v).mergedById).Nodup := by
  simp only [processVod]
  split
  · exact idsOf_mapSet_nodup h
  · split
    · exact idsOf_mapSet_nodup h
    · exact h

theorem runLoop_ids_mem (seen : List String) (fi : String → List StoredFile)
    (now : String) (vs : List StoredVod) :
    ∀ st {j : String}, j ∈ idsOf st.mergedById →
      j ∈ idsOf (runLoop seen fi now st vs).mergedById := by
  induction vs with
  | nil => intro st j h; exact h
  | cons v vs ih =>
    intro st j h
    rw [runLoop_cons]
    exact ih _ (processVod_ids_mem _ _ _ _ _ h)

theorem runLoop_ids_nodup (seen : List String) (fi : String → List StoredFile)
    (now : String) (vs : List StoredVod) :
    ∀ st, (idsOf st.mergedById).Nodup →
      (idsOf (runLoop seen fi now st vs).mergedById).Nodup := by
  induction vs with
  | nil => intro st h; exact h
  | cons v vs ih =>
    intro st h
    rw [runLoop_cons]
    exact ih _ (processVod_ids_nodup _ _ _ _ _ h)

theorem processVod_step (seen : List String) (fi : String → List StoredFile)
    (now : String) (st : LoopState) (v : StoredVod) (po : Option StoredVod)
    (hget : mapGet st.mergedById v.id = po)
    (hcont : seen.contains v.id = po.isSome) :
    (processVod seen fi now st v).mergedById
        = mapSet st.mergedById (mergeSpec po v fi now)
      ∧ (processVod seen fi now st v).fetched
        = (if needsFileInfo po then st.fetched ++ [v.id] else st.fetched) := by
  cases po with
  | none =>
    simp only [Option.isSome_none] at hcont
    have hmem : v.id ∉ seen := by
      intro hc
      rw [contains_eq_true_iff.mpr hc] at hcont
      simp at hcont
    refine ⟨?_, ?_⟩ <;>
      simp [processVod, hget, hcont, hmem, needsFileInfo, mergeSpec]
  | some p =>
    simp only [Option.isSome_some] at hcont
    have hmem : v.id ∈ seen := contains_eq_true_iff.mp hcont
    cases hn : needsFileInfo (some p) with
    | true =>
      refine ⟨?_, ?_⟩ <;> simp [processVod, hget, hcont, hmem, hn, mergeSpec]
    | false =>
      refine ⟨?_, ?_⟩ <;> simp [processVod, hget, hcont, hmem, hn, mergeSpec]

theorem runLoop_char (prior : Option Store) (raws : List RawVod)
    (fi : String → List StoredFile) (now : String)
    (H1 : (idsOf (priorVods prior)).Nodup)
    (H2 : (idsOf (normalizeAll raws)).Nodup)
    {v : StoredVod} (hv : v ∈ normalizeAll raws) :
    (v.id ∈ (runLoopResult prior raws fi now).fetched
        ↔ needsFileInfo (mapGet (priorVods prior) v.id) = true)
    ∧ mapGet (runLoopResult prior raws fi now).mergedById v.id
        = some (mergeSpec (mapGet (priorVods prior) v.id) v fi now) := by
  obtain ⟨pre, post, heq⟩ := List.append_of_mem hv
  have hids : (idsOf (pre ++ v :: post)).Nodup := by rw [← heq]; exact H2
  rw [idsOf_append, List.nodup_append] at hids
  have hpre : ∀ w ∈ pre, w.id ≠ v.id := by
    intro w hw hc
    exact hids.2.2 (List.mem_map_of_mem (fun y => y.id) hw)
      (by rw [hc, idsOf_cons]; exact List.mem_cons_self _ _)
  have hpost : ∀ w ∈ post, w.id ≠ v.id := by
    intro w hw hc
    have hvnotin : v.id ∉ idsOf post := by
      rw [idsOf_cons] at hids
      exact (List.nodup_cons.mp hids.2.1).1
    exact hvnotin (hc ▸ List.mem_map_of_mem (fun y => y.id) hw)
  have hseed : seedList (priorVods prior) = priorVods prior := seedList_eq_self H1
  have hcont : (byIdSet prior).contains v.id
      = (mapGet (priorVods prior) v.id).isSome := by
    cases hpo : mapGet (priorVods prior) v.id with
    | none =>
      have hnm : v.id ∉ idsOf (priorVods prior) := mapGet_eq_none_iff.mp hpo
      simp only [Option.isSome_none]
      have hnot : ¬(byIdSet prior).contains v.id = true :=
        fun hc => hnm (contains_eq_true_iff.mp hc)
      simpa using hnot
    | some p =>
      simp only [Option.isSome_some]
      refine contains_eq_true_iff.mpr ?_
      obtain ⟨hm, hi⟩ := mem_of_mapGet hpo
      exact hi ▸ List.mem_map_of_mem (fun w => w.id) hm
  have hrl : runLoopResult prior raws fi now
      = runLoop (byIdSet prior) fi now
          (processVod (byIdSet prior) fi now
            (runLoop (byIdSet prior) fi now
              ⟨seedList (priorVods prior), 0, 0, []⟩ pre) v) post := by
    rw [runLoopResult, heq, runLoop_append, runLoop_cons]
  have hget1 : mapGet (runLoop (byIdSet prior) fi now
      ⟨seedList (priorVods prior), 0, 0, []⟩ pre).mergedById v.id
      = mapGet (priorVods prior) v.id := by
    rw [runLoop_get_ne _ _ _ pre _ hpre]
    show mapGet (seedList (priorVods prior)) v.id = _
    rw [hseed]
  have hfetch1 : v.id ∈ (runLoop (byIdSet prior) fi now
      ⟨seedList (priorVods prior), 0, 0, []⟩ pre).fetched ↔ False := by
    rw [runLoop_fetched_ne _ _ _ pre _ hpre]
    simp
  obtain ⟨hm2, hf2⟩ := processVod_step (byIdSet prior) fi now _ v _ hget1 hcont
  constructor
  · rw [hrl, runLoop_fetched_ne _ _ _ post _ hpost, hf2]
    cases hn : needsFileInfo (mapGet (priorVods prior) v.id) with
    | true => simp [hn]
    | false => simp [hn, hfetch1]
  · rw [hrl, runLoop_get_ne _ _ _ post _ hpost, hm2]
    have base := mapGet_mapSet_self
      (runLoop (byIdSet prior) fi now
        ⟨seedList (priorVods prior), 0, 0, []⟩ pre).mergedById
      (mergeSpec (mapGet (priorVods prior) v.id) v fi now)
    rwa [mergeSpec_id] at base

theorem inOrderDesc_total (a b : StoredVod) :
    inOrderDesc a b = true ∨ inOrderDesc b a = true := by
  cases ha : vodKey a <;> cases hb : vodKey b <;>
    simp [inOrderDesc, ha, hb]
  exact le_total _ _

theorem chain'_insertDesc {l : List StoredVod} (x : StoredVod)
    (h : List.Chain' (fun a b => inOrderDesc a b = true) l) :
    List.Chain' (fun a b => inOrderDesc a b = true) (insertDesc x l) := by
  induction l with
  | nil => simp [insertDesc]
  | cons y ys ih =>
    rw [insertDesc]
    split
    case isTrue hxy =>
      exact List.chain'_cons.mpr ⟨hxy, h⟩
    case isFalse hxy =>
      have hyx : inOrderDesc y x = true := by
        rcases inOrderDesc_total x y with h1 | h1
        · exact absurd h1 hxy
        · exact h1
      have hys := List.Chain'.tail h
      rw [List.chain'_cons']
      refine ⟨?_, ih hys⟩
      intro b hb
      cases ys with
      | nil =>
        simp [insertDesc] at hb
        rw [← hb]
        exact hyx
      | cons z zs =>
        rw [insertDesc] at hb
        by_cases hxz : inOrderDesc x z = true
        · rw [if_pos hxz] at hb
          simp at hb
          rw [← hb]
          exact hyx
        · rw [if_neg hxz] at hb
          simp at hb
          rw [← hb]
          exact (List.chain'_cons.mp h).1

theorem chain'_sortVods (l : List StoredVod) :
    List.Chain' (fun a b => inOrderDesc a b = true) (sortVods l) := by
  induction l with
  | nil => simp [sortVods]
  | cons x xs ih =>
    rw [sortVods, List.foldr_cons]
    exact chain'_insertDesc x ih

theorem sortVods_eq_self {l : List StoredVod}
    (h : List.Chain' (fun a b => inOrderDesc a b = true) l) : sortVods l = l := by
  induction l with
  | nil => rfl
  | cons x xs ih =>
    have hxs := List.Chain'.tail h
    rw [sortVods, List.foldr_cons,
      show List.foldr insertDesc [] xs = sortVods xs from rfl, ih hxs]
    cases xs with
    | nil => rfl
    | cons y ys =>
      rw [insertDesc, if_pos (List.chain'_cons.mp h).1]

theorem sortVods_idem (l : List StoredVod) :
    sortVods (sortVods l) = sortVods l :=
  sortVods_eq_self (chain'_sortVods l)

theorem insertDesc_perm (x : StoredVod) (l : List StoredVod) :
    List.Perm (insertDesc x l) (x :: l) := by
  induction l with
  | nil => exact List.Perm.refl _
  | cons y ys ih =>
    rw [insertDesc]
    split
    · exact List.Perm.refl _
    · exact (List.Perm.cons y ih).trans (List.Perm.swap x y ys)

theorem sortVods_perm (l : List StoredVod) : List.Perm (sortVods l) l := by
  induction l with
  | nil => exact List.Perm.refl _
  | cons x xs ih =>
    rw [sortVods, List.foldr_cons]
    exact (insertDesc_perm x _).trans (List.Perm.cons x ih)

theorem runMain_vods (BASE loggedInUsername : String)
    (TARGET_USER_OVERRIDE : Option String) (prior : Option Store)
    (raws : List RawVod) (fi : String → List StoredFile)
    (fetchNow genNow : String) :
    (runMain BASE loggedInUsername TARGET_USER_OVERRIDE prior raws fi
        fetchNow genNow).vods
      = sortVods (runLoopResult prior raws fi fetchNow).mergedById := rfl

theorem strAppend_ne_of_ne (a : String) {s t : String} (h : s ≠ t) :
    a ++ s ≠ a ++ t := by
  intro hc
  apply h
  have hd : (a ++ s).data = (a ++ t).data := congrArg String.data hc
  simp [String.data_append] at hd
  exact String.ext hd

theorem runLoopResult_ids_nodup (prior : Option Store) (raws : List RawVod)
    (fi : String → List StoredFile) (now : String) :
    (idsOf (runLoopResult prior raws fi now).mergedById).Nodup := by
  unfold runLoopResult
  exact runLoop_ids_nodup _ _ _ _ _ (seedList_nodup _)

/-- A merged entry produced with a non-empty file_info response and a
non-empty fetch timestamp never needs a refetch. -/
theorem needsFileInfo_mergeSpec_false (po : Option StoredVod) (v : StoredVod)
    (fi : String → List StoredFile) (t : String)
    (hfi : fi v.id ≠ []) (ht : t ≠ "") :
    needsFileInfo (some (mergeSpec po v fi t)) = false := by
  cases po with
  | none =>
    simp [mergeSpec, fetchMerge, spreadDescriptive, needsFileInfo, strFalsy,
      ht, hfi]
  | some p =>
    cases hn : needsFileInfo (some p) with
    | true =>
      have hms : mergeSpec (some p) v fi t = fetchMerge (some p) v fi t := by
        simp [mergeSpec, hn]
      rw [hms]
      simp [fetchMerge, spreadDescriptive, needsFileInfo, strFalsy, ht, hfi]
    | false =>
      simp only [mergeSpec, hn, Bool.false_eq_true, if_false]
      cases hf : p.files with
      | none => simp [needsFileInfo, hf] at hn
      | some fs =>
        simp [needsFileInfo, keepMerge, spreadDescriptive, hf] at hn ⊢
        exact hn

theorem keepMerge_mergeSpec (po : Option StoredVod) (v : StoredVod)
    (fi : String → List StoredFile) (t : String) :
    keepMerge (mergeSpec po v fi t) v = mergeSpec po v fi t := by
  cases po with
  | none => rfl
  | some p =>
    simp only [mergeSpec]
    split <;> rfl

/-- If every listed entry already has a healthy merged value stored under its
id and is a known id, the merge loop leaves the collection untouched. -/
theorem runLoop_fix (seen : List String) (fi : String → List StoredFile)
    (now : String) (M : List StoredVod) (hnd : (idsOf M).Nodup)
    (vs : List StoredVod)
    (hvs : ∀ v ∈ vs, ∃ e, mapGet M v.id = some e
      ∧ needsFileInfo (some e) = false
      ∧ seen.contains v.id = true
      ∧ keepMerge e v = e) :
    ∀ st, st.mergedById = M → (runLoop seen fi now st vs).mergedById = M := by
  induction vs with
  | nil => intro st h; exact h
  | cons v vs ih =>
    intro st h
    rw [runLoop_cons]
    obtain ⟨e, hget, hneed, hcont, hkeep⟩ := hvs v (List.mem_cons_self v vs)
    have hget2 : mapGet st.mergedById v.id = some e := by rw [h]; exact hget
    have hstep := processVod_step seen fi now st v (some e) hget2
      (by rw [hcont]; rfl)
    have hm : (processVod seen fi now st v).mergedById = M := by
      rw [hstep.1, h]
      have hms : mergeSpec (some e) v fi now = e := by
        simp [mergeSpec, hneed, hkeep]
      rw [hms]
      apply mapSet_eq_self hnd
      rw [(mem_of_mapGet hget).2]
      exact hget
    exact ih (fun w hw => hvs w (List.mem_cons_of_mem v hw)) _ hm

/-- C5: with a one-time-password configured, a server response of
TOTP_REQUIRED falls through to the generic error branch and surfaces as the
message "Login error: TOTP_REQUIRED", which differs from the message produced
for any other truthy server-reported error string (the error string is
embedded in the message) and from the dedicated missing-TOTP message. -/
theorem claim_C5 (t : String) (ht : t ≠ "") (e : String) (he : e ≠ "")
    (heT : e ≠ "TOTP_REQUIRED") (st1 st2 : Nat) (d1 d2 : Option LoginData) :
    login (some t) ⟨true, st1, some "TOTP_REQUIRED", d1⟩
        = Except.error "Login error: TOTP_REQUIRED"
    ∧ login (some t) ⟨true, st2, some e, d2⟩
        = Except.error ("Login error: " ++ e)
    ∧ (Except.error ("Login error: " ++ e) :
        Except String LoginData) ≠ Except.error "Login error: TOTP_REQUIRED"
    ∧ (Except.error "Login error: TOTP_REQUIRED" :
        Except String LoginData)
      ≠ Except.error "Login requires TOTP; set VAULT_TOTP and retry." := by
  refine ⟨?_, ?_, ?_, ?_⟩
  · simp [login, strFalsy, ht]
  · simp [login, strFalsy, ht, he, heT]
  · intro hc
    simp only [Except.error.injEq] at hc
    have h2 : ("Login error: TOTP_REQUIRED" : String)
        = "Login error: " ++ "TOTP_REQUIRED" := rfl
    rw [h2] at hc
    exact strAppend_ne_of_ne _ heT hc
  · intro hc
    simp only [Except.error.injEq] at hc
    exact (by decide : ("Login error: TOTP_REQUIRED" : String)
      ≠ "Login requires TOTP; set VAULT_TOTP and retry.") hc

theorem claim_C5_witness :
    login (some "123456")
        ⟨true, 200, some "TOTP_REQUIRED", (none : Option LoginData)⟩
        = Except.error "Login error: TOTP_REQUIRED"
    ∧ login (some "123456")
        ⟨true, 200, some "INVALID_CREDENTIALS", (none : Option LoginData)⟩
        = Except.error ("Login error: " ++ "INVALID_CREDENTIALS")
    ∧ (Except.error ("Login error: " ++ "INVALID_CREDENTIALS") :
        Except String LoginData) ≠ Except.error "Login error: TOTP_REQUIRED"
    ∧ (Except.error "Login error: TOTP_REQUIRED" :
        Except String LoginData)
      ≠ Except.error "Login requires TOTP; set VAULT_TOTP and retry." :=
  claim_C5 "123456" (by decide) "INVALID_CREDENTIALS" (by decide) (by decide)
    200 200 none none

/-- C6: the configured target-user override is read but never used; the
target user always equals the authenticated username, so with override alice
and login username bob the listing target is bob, contradicting the claim
and the script's own ENV documentation (line 16). -/
theorem claim_C6 :
    computeTargetUser (some "alice") "bob" = "bob"
    ∧ "bob" ≠ "alice"
    ∧ (runMain "https://vault.example" "bob" (some "alice") none []
        (fun _ => []) "t0" "g0").meta.targetUser = "bob" :=
  ⟨rfl, by decide, rfl⟩

/-- Raw record carrying both duration keys and the generic created key. -/
def c7raw : RawVod :=
  { ID := some "42", title := none, name := none, channel := none,
    twitch_channel := none, created_at := some 5, twitch_createdAt := none,
    duration := some 10, twitch_duration := some 20, twitch_ID := none }

/-- C7 counterexample: the claim says duration is taken from the generic key
first, so a record with duration 10 and twitch_duration 20 would normalize to
10; the code takes the twitch-specific key first and yields 20.  Likewise the
claim says the created timestamp consults the generic key first, but the code
reads only twitch_createdAt, so created_at 5 is dropped. -/
theorem claim_C7_counterexample :
    (normalizeVod c7raw).map (fun sv => sv.duration_seconds) = some (some 20)
    ∧ some (some 20) ≠ (some (some 10) : Option (Option Int))
    ∧ (normalizeVod c7raw).map (fun sv => sv.created_at) = some none
    ∧ c7raw.created_at = some 5 := by
  refine ⟨rfl, by decide, rfl, rfl⟩

/-- C7 amended: for every accepted raw record, title is title then name,
channel is channel then twitch_channel, the created timestamp comes from the
twitch-specific key only, duration is the twitch-specific key then the
generic key, and twitch_id from the twitch-specific id key only. -/
theorem claim_C7 (raw : RawVod) (sv : StoredVod)
    (h : normalizeVod raw = some sv) :
    sv.title = (raw.title <|> raw.name)
    ∧ sv.channel = (raw.channel <|> raw.twitch_channel)
    ∧ sv.created_at = raw.twitch_createdAt
    ∧ sv.duration_seconds = (raw.twitch_duration <|> raw.duration)
    ∧ sv.twitch_id = raw.twitch_ID := by
  cases hid : raw.ID with
  | none => simp [normalizeVod, hid] at h
  | some i =>
    simp only [normalizeVod, hid] at h
    by_cases hi : i == ""
    · rw [if_pos hi] at h
      exact absurd h (by simp)
    · rw [if_neg hi] at h
      have h2 := Option.some.inj h
      rw [← h2]
      exact ⟨rfl, rfl, rfl, rfl, rfl⟩

/-- Well-formed raw record for the C7 witness. -/
def c7wraw : RawVod :=
  { ID := some "7", title := some "T", name := none, channel := none,
    twitch_channel := some "ch", created_at := none, twitch_createdAt := some 9,
    duration := some 3, twitch_duration := none, twitch_ID := some "tw" }

/-- The entry c7wraw normalizes to. -/
def c7wout : StoredVod :=
  { id := "7", title := some "T", channel := some "ch", recorded_at := none,
    created_at := some 9, duration_seconds := some 3, twitch_id := some "tw",
    files := none, filesFetchedAt := none }

theorem claim_C7_witness :
    c7wout.title = (c7wraw.title <|> c7wraw.name)
    ∧ c7wout.channel = (c7wraw.channel <|> c7wraw.twitch_channel)
    ∧ c7wout.created_at = c7wraw.twitch_createdAt
    ∧ c7wout.duration_seconds = (c7wraw.twitch_duration <|> c7wraw.duration)
    ∧ c7wout.twitch_id = c7wraw.twitch_ID :=
  claim_C7 c7wraw c7wout (by decide)

/-- A stored entry with only a recorded_at timestamp. -/
def c8entry (i : String) (r : Int) : StoredVod :=
  { id := i, title := none, channel := none, recorded_at := some r,
    created_at := none, duration_seconds := none, twitch_id := none,
    files := none, filesFetchedAt := none }

/-- Prior snapshot holding entries with recorded_at 100, 300, 200. -/
def c8prior : Store :=
  { meta := { generatedAt := "g", baseUrl := "b", targetUser := "u",
              total := 3 }
    vods := [c8entry "a" 100, c8entry "b" 300, c8entry "c" 200] }

/-- C8: the saved entry sequence always satisfies the descending comparator
relation between neighbours (recorded_at with created_at fallback), and for
entries with recorded_at 100, 300, 200 the saved order is [300, 200, 100]. -/
theorem claim_C8 :
    (∀ (BASE uname : String) (ov : Option String) (prior : Option Store)
        (raws : List RawVod) (fi : String → List StoredFile) (t g : String),
      List.Chain' (fun a b => inOrderDesc a b = true)
        (runMain BASE uname ov prior raws fi t g).vods)
    ∧ (runMain "b" "u" none (some c8prior) [] (fun _ => []) "t" "g").vods.map
        (fun v => v.recorded_at) = [some 300, some 200, some 100] := by
  constructor
  · intro BASE uname ov prior raws fi t g
    rw [runMain_vods]
    exact chain'_sortVods _
  · decide

/-- A file record for the C3 prior snapshot. -/
def c3file : StoredFile :=
  { fileId := some "f1", fileName := some "a.mp4", fileSizeRaw := some 5,
    fileSize := none, downloadUrl := none, contentType := none,
    metadata := [] }

/-- Prior entry with a title, a non-empty file list and a fetch timestamp. -/
def c3priorEntry : StoredVod :=
  { id := "7", title := some "Old title", channel := some "chan",
    recorded_at := some 50, created_at := some 40, duration_seconds := some 60,
    twitch_id := some "tt", files := some [c3file],
    filesFetchedAt := some "2024-01-01T00:00:00Z" }

/-- Prior snapshot for the C3 counterexample. -/
def c3prior : Store :=
  { meta := { generatedAt := "g", baseUrl := "b", targetUser := "u",
              total := 1 }
    vods := [c3priorEntry] }

/-- Fresh listing record for id 7 carrying no descriptive fields. -/
def c3raw : RawVod :=
  { ID := some "7", title := none, name := none, channel := none,
    twitch_channel := none, created_at := none, twitch_createdAt := none,
    duration := none, twitch_duration := none, twitch_ID := none }

/-- C3 counterexample: the fresh normalized entry for id 7 leaves title
undefined, so the claim requires the merged output to fall back to the prior
title "Old title"; the object spread instead overwrites the field with
undefined and the saved entry has no title. -/
theorem claim_C3_counterexample :
    (normalizeVod c3raw).map (fun sv => sv.title) = some none
    ∧ c3priorEntry.title = some "Old title"
    ∧ (runMain "b" "u" none (some c3prior) [c3raw] (fun _ => []) "t2"
        "g2").vods.map (fun w => (w.id, w.title)) = [("7", none)]
    ∧ (none : Option String) ≠ some "Old title" := by
  refine ⟨rfl, rfl, by decide, by decide⟩

/-- C3 amended: every descriptive field of the merged entry takes the fresh
normalized value unconditionally.  The normalizer defines every descriptive
key of its result, possibly with value undefined, and object spread copies
keys with undefined values, so a fresh-unset field overwrites the prior value
instead of falling back; only recorded_at, files and filesFetchedAt (keys the
normalizer never defines) can come from the prior entry, the latter two per
the fetch-decision branch. -/
theorem claim_C3 (old : Option StoredVod) (v : StoredVod) :
    (spreadDescriptive old v).title = v.title
    ∧ (spreadDescriptive old v).channel = v.channel
    ∧ (spreadDescriptive old v).created_at = v.created_at
    ∧ (spreadDescriptive old v).duration_seconds = v.duration_seconds
    ∧ (spreadDescriptive old v).twitch_id = v.twitch_id
    ∧ (spreadDescriptive old v).recorded_at
        = old.bind (fun o => o.recorded_at) :=
  ⟨rfl, rfl, rfl, rfl, rfl, rfl⟩

/-- C1: for every listed entry, a file_info fetch is issued exactly when the
prior snapshot has no entry with that id, or the prior entry has a missing or
empty file list, or it has files but no filesFetchedAt timestamp.  The
hypotheses ask for snapshots and listings with pairwise-distinct ids (the
id-uniqueness invariant of the snapshot and of the remote collection) and for
prior timestamps that are not the empty string (snapshots written by the
program always carry ISO strings). -/
theorem claim_C1 (prior : Option Store) (raws : List RawVod)
    (fi : String → List StoredFile) (now : String)
    (H1 : (idsOf (priorVods prior)).Nodup)
    (H2 : (idsOf (normalizeAll raws)).Nodup)
    (HW : ∀ p ∈ priorVods prior, p.filesFetchedAt ≠ some "")
    (v : StoredVod) (hv : v ∈ normalizeAll raws) :
    v.id ∈ fetchedIds prior raws fi now
      ↔ claimMustFetch (mapGet (priorVods prior) v.id) = true := by
  have hchar := (runLoop_char prior raws fi now H1 H2 hv).1
  rw [show fetchedIds prior raws fi now
      = (runLoopResult prior raws fi now).fetched from rfl, hchar]
  cases hpo : mapGet (priorVods prior) v.id with
  | none => simp [needsFileInfo, claimMustFetch]
  | some p =>
    have hp : p.filesFetchedAt ≠ some "" := HW p (mem_of_mapGet hpo).1
    cases hf : p.files with
    | none => simp [needsFileInfo, claimMustFetch, hf]
    | some fs =>
      cases hfa : p.filesFetchedAt with
      | none => simp [needsFileInfo, claimMustFetch, hf, hfa, strFalsy]
      | some s =>
        have hs : s ≠ "" := fun hc => hp (by rw [hfa, hc])
        simp [needsFileInfo, claimMustFetch, hf, hfa, strFalsy, hs]

/-- Raw listing record for the C1 witness. -/
def c1raw : RawVod :=
  { ID := some "9", title := none, name := none, channel := none,
    twitch_channel := none, created_at := none, twitch_createdAt := none,
    duration := none, twitch_duration := none, twitch_ID := none }

/-- The entry c1raw normalizes to. -/
def c1out : StoredVod :=
  { id := "9", title := none, channel := none, recorded_at := none,
    created_at := none, duration_seconds := none, twitch_id := none,
    files := none, filesFetchedAt := none }

theorem claim_C1_witness :
    c1out.id ∈ fetchedIds none [c1raw] (fun _ => []) "t"
      ↔ claimMustFetch (mapGet (priorVods none) c1out.id) = true :=
  claim_C1 none [c1raw] (fun _ => []) "t" (by decide) (by decide) (by decide)
    c1out (by decide)

/-- C2: a prior entry with a non-empty file list and a non-empty
filesFetchedAt that appears in the fresh listing triggers no detail fetch,
and the saved entry keeps exactly the prior files and filesFetchedAt. -/
theorem claim_C2 (BASE uname : String) (ov : Option String)
    (prior : Option Store) (raws : List RawVod)
    (fi : String → List StoredFile) (now gen : String)
    (H1 : (idsOf (priorVods prior)).Nodup)
    (H2 : (idsOf (normalizeAll raws)).Nodup)
    (p : StoredVod) (hp : p ∈ priorVods prior)
    (fs : List StoredFile) (hfs : p.files = some fs) (hne : fs ≠ [])
    (t : String) (ht : p.filesFetchedAt = some t) (ht2 : t ≠ "")
    (v : StoredVod) (hv : v ∈ normalizeAll raws) (hid : v.id = p.id) :
    p.id ∉ fetchedIds prior raws fi now
    ∧ ∀ w ∈ (runMain BASE uname ov prior raws fi now gen).vods, w.id = p.id →
        w.files = some fs ∧ w.filesFetchedAt = some t := by
  have hfind : mapGet (priorVods prior) p.id = some p := mapGet_of_mem H1 hp
  have hneed : needsFileInfo (some p) = false := by
    simp [needsFileInfo, hfs, ht, strFalsy, ht2, List.isEmpty_iff, hne]
  obtain ⟨hfetch, hmerged⟩ := runLoop_char prior raws fi now H1 H2 hv
  rw [hid] at hfetch hmerged
  rw [hfind] at hfetch hmerged
  constructor
  · intro hc
    have h3 := hfetch.mp hc
    rw [hneed] at h3
    simp at h3
  · intro w hw hwid
    have hwm : w ∈ (runLoopResult prior raws fi now).mergedById := by
      rw [runMain_vods] at hw
      exact (sortVods_perm _).mem_iff.mp hw
    have hwget : mapGet (runLoopResult prior raws fi now).mergedById w.id
        = some w := mapGet_of_mem (runLoopResult_ids_nodup _ _ _ _) hwm
    rw [hwid] at hwget
    have hw_eq : w = mergeSpec (some p) v fi now :=
      Option.some.inj (hwget.symm.trans hmerged)
    rw [hw_eq]
    simp [mergeSpec, hneed, keepMerge, spreadDescriptive, hfs, ht]

/-- Prior entry for the C2 witness: one file, a fetch timestamp. -/
def c2priorEntry : StoredVod :=
  { id := "7", title := some "Old", channel := none, recorded_at := some 50,
    created_at := some 40, duration_seconds := none, twitch_id := none,
    files := some [c3file], filesFetchedAt := some "2024-01-01T00:00:00Z" }

/-- Prior snapshot for the C2 witness. -/
def c2prior : Store :=
  { meta := { generatedAt := "g", baseUrl := "b", targetUser := "u",
              total := 1 }
    vods := [c2priorEntry] }

/-- The entry c3raw normalizes to, for the C2 witness. -/
def c2wfresh : StoredVod :=
  { id := "7", title := none, channel := none, recorded_at := none,
    created_at := none, duration_seconds := none, twitch_id := none,
    files := none, filesFetchedAt := none }

theorem claim_C2_witness :
    c2priorEntry.id ∉ fetchedIds (some c2prior) [c3raw] (fun _ => []) "t2"
    ∧ ∀ w ∈ (runMain "b" "u" none (some c2prior) [c3raw] (fun _ => []) "t2"
        "g2").vods, w.id = c2priorEntry.id →
        w.files = some [c3file]
        ∧ w.filesFetchedAt = some "2024-01-01T00:00:00Z" :=
  claim_C2 "b" "u" none (some c2prior) [c3raw] (fun _ => []) "t2" "g2"
    (by decide) (by decide) c2priorEntry (by decide) [c3file] (by decide)
    (by decide) "2024-01-01T00:00:00Z" (by decide) (by decide) c2wfresh
    (by decide) (by decide)

/-- C9: every id of the prior snapshot also appears among the saved ids, and
the saved ids are pairwise distinct. -/
theorem claim_C9 (BASE uname : String) (ov : Option String)
    (prior : Option Store) (raws : List RawVod)
    (fi : String → List StoredFile) (now gen : String) :
    (∀ i ∈ byIdSet prior,
        i ∈ idsOf (runMain BASE uname ov prior raws fi now gen).vods)
    ∧ (idsOf (runMain BASE uname ov prior raws fi now gen).vods).Nodup := by
  have hperm : List.Perm
      (idsOf (runMain BASE uname ov prior raws fi now gen).vods)
      (idsOf (runLoopResult prior raws fi now).mergedById) := by
    rw [runMain_vods]
    exact (sortVods_perm _).map (fun v => v.id)
  constructor
  · intro i hi
    have h1 : i ∈ idsOf (seedList (priorVods prior)) :=
      (seedList_mem _ _).mpr hi
    have h2 : i ∈ idsOf (runLoopResult prior raws fi now).mergedById := by
      unfold runLoopResult
      exact runLoop_ids_mem _ _ _ _ _ h1
    exact hperm.mem_iff.mpr h2
  · exact hperm.nodup_iff.mpr (runLoopResult_ids_nodup _ _ _ _)

theorem claim_C9_witness :
    "7" ∈ idsOf (runMain "b" "u" none (some c2prior) [c1raw] (fun _ => [])
        "t" "g").vods
    ∧ (idsOf (runMain "b" "u" none (some c2prior) [c1raw] (fun _ => [])
        "t" "g").vods).Nodup :=
  ⟨(claim_C9 "b" "u" none (some c2prior) [c1raw] (fun _ => []) "t" "g").1
      "7" (by decide),
    (claim_C9 "b" "u" none (some c2prior) [c1raw] (fun _ => []) "t" "g").2⟩

/-- C10: the normalizer never sets recorded_at (nor files nor
filesFetchedAt), so an entry whose id is new relative to the prior snapshot is
saved without recorded_at and its sort key is exactly its created_at. -/
theorem claim_C10 (BASE uname : String) (ov : Option String)
    (prior : Option Store) (raws : List RawVod)
    (fi : String → List StoredFile) (now gen : String)
    (H1 : (idsOf (priorVods prior)).Nodup)
    (H2 : (idsOf (normalizeAll raws)).Nodup)
    (v : StoredVod) (hv : v ∈ normalizeAll raws)
    (hnew : v.id ∉ byIdSet prior) :
    (∀ (raw : RawVod) (sv : StoredVod), normalizeVod raw = some sv →
        sv.recorded_at = none ∧ sv.files = none ∧ sv.filesFetchedAt = none)
    ∧ (∀ w ∈ (runMain BASE uname ov prior raws fi now gen).vods,
        w.id = v.id → w.recorded_at = none ∧ vodKey w = w.created_at) := by
  constructor
  · intro raw sv h
    cases hid : raw.ID with
    | none => simp [normalizeVod, hid] at h
    | some i =>
      simp only [normalizeVod, hid] at h
      by_cases hi : i == ""
      · rw [if_pos hi] at h
        exact absurd h (by simp)
      · rw [if_neg hi] at h
        have h2 := Option.some.inj h
        rw [← h2]
        exact ⟨rfl, rfl, rfl⟩
  · intro w hw hwid
    have hpo : mapGet (priorVods prior) v.id = none :=
      mapGet_eq_none_iff.mpr hnew
    obtain ⟨_, hmerged⟩ := runLoop_char prior raws fi now H1 H2 hv
    rw [hpo] at hmerged
    have hwm : w ∈ (runLoopResult prior raws fi now).mergedById := by
      rw [runMain_vods] at hw
      exact (sortVods_perm _).mem_iff.mp hw
    have hwget : mapGet (runLoopResult prior raws fi now).mergedById w.id
        = some w := mapGet_of_mem (runLoopResult_ids_nodup _ _ _ _) hwm
    rw [hwid] at hwget
    have hw_eq : w = mergeSpec none v fi now :=
      Option.some.inj (hwget.symm.trans hmerged)
    rw [hw_eq]
    exact ⟨rfl, by simp [mergeSpec, fetchMerge, spreadDescriptive, vodKey]⟩

theorem claim_C10_witness :
    (∀ (raw : RawVod) (sv : StoredVod), normalizeVod raw = some sv →
        sv.recorded_at = none ∧ sv.files = none ∧ sv.filesFetchedAt = none)
    ∧ (∀ w ∈ (runMain "b" "u" none (some c2prior) [c1raw] (fun _ => [])
        "t" "g").vods, w.id = c1out.id →
        w.recorded_at = none ∧ vodKey w = w.created_at) :=
  claim_C10 "b" "u" none (some c2prior) [c1raw] (fun _ => []) "t" "g"
    (by decide) (by decide) c1out (by decide) (by decide)

theorem store_eq {s1 s2 : Store} (hv : s1.vods = s2.vods)
    (h1 : s1.meta.generatedAt = s2.meta.generatedAt)
    (h2 : s1.meta.baseUrl = s2.meta.baseUrl)
    (h3 : s1.meta.targetUser = s2.meta.targetUser)
    (h4 : s1.meta.total = s2.meta.total) : s1 = s2 := by
  cases s1 with
  | mk m1 v1 =>
  cases s2 with
  | mk m2 v2 =>
  cases m1 with
  | mk a b c d =>
  cases m2 with
  | mk a2 b2 c2 d2 =>
  have ha : a = a2 := h1
  have hb : b = b2 := h2
  have hc : c = c2 := h3
  have hd : d = d2 := h4
  have hvv : v1 = v2 := hv
  rw [ha, hb, hc, hd, hvv]

/-- Listing record for the C4 scenario. -/
def c4raw : RawVod :=
  { ID := some "7", title := some "T", name := none, channel := none,
    twitch_channel := none, created_at := none, twitch_createdAt := some 100,
    duration := none, twitch_duration := none, twitch_ID := none }

/-- C4 counterexample: with an unchanged remote state whose file_info
response for id 7 is empty, the first run stores files [] with
filesFetchedAt t1; the second run classifies the entry as stale again
(empty stored file list), refetches, and stores filesFetchedAt t2, so the two
snapshots differ beyond meta.generatedAt. -/
theorem claim_C4_counterexample :
    ((runMain "b" "u" none none [c4raw] (fun _ => []) "t1" "g1").vods.map
        (fun w => w.filesFetchedAt) = [some "t1"])
    ∧ ((runMain "b" "u" none
        (some (runMain "b" "u" none none [c4raw] (fun _ => []) "t1" "g1"))
        [c4raw] (fun _ => []) "t2" "g2").vods.map
        (fun w => w.filesFetchedAt) = [some "t2"])
    ∧ (runMain "b" "u" none
        (some (runMain "b" "u" none none [c4raw] (fun _ => []) "t1" "g1"))
        [c4raw] (fun _ => []) "t2" "g2").vods
      ≠ (runMain "b" "u" none none [c4raw] (fun _ => []) "t1" "g1").vods := by
  refine ⟨by decide, by decide, by decide⟩

/-- C4 amended: running the process twice against an unchanged remote state
produces outputs identical except for meta.generatedAt, provided every
file_info response for a listed id is non-empty (an entry whose stored file
list is empty is classified stale and refetched every run, so its
filesFetchedAt would also change); ids are assumed pairwise distinct in the
prior snapshot and the listing, and the first run's clock reading non-empty
as every real ISO timestamp is. -/
theorem claim_C4 (BASE uname : String) (ov : Option String)
    (prior : Option Store) (raws : List RawVod)
    (fi : String → List StoredFile) (t1 g1 t2 g2 : String)
    (H1 : (idsOf (priorVods prior)).Nodup)
    (H2 : (idsOf (normalizeAll raws)).Nodup)
    (HF : ∀ v ∈ normalizeAll raws, fi v.id ≠ [])
    (Ht1 : t1 ≠ "") :
    runMain BASE uname ov
        (some (runMain BASE uname ov prior raws fi t1 g1)) raws fi t2 g2
      = { runMain BASE uname ov prior raws fi t1 g1 with
          meta := { (runMain BASE uname ov prior raws fi t1 g1).meta with
                    generatedAt := g2 } } := by
  have hnd1 := runLoopResult_ids_nodup prior raws fi t1
  have hvods1 : (runMain BASE uname ov prior raws fi t1 g1).vods
      = sortVods (runLoopResult prior raws fi t1).mergedById :=
    runMain_vods BASE uname ov prior raws fi t1 g1
  have hndS : (idsOf (runMain BASE uname ov prior raws fi t1 g1).vods).Nodup := by
    rw [hvods1]
    show (List.map (fun v => v.id)
      (sortVods (runLoopResult prior raws fi t1).mergedById)).Nodup
    exact ((sortVods_perm _).map (fun v => v.id)).nodup_iff.mpr
      (show (List.map (fun v => v.id)
        (runLoopResult prior raws fi t1).mergedById).Nodup from hnd1)
  have hfix : (runLoopResult
      (some (runMain BASE uname ov prior raws fi t1 g1)) raws fi t2).mergedById
      = (runMain BASE uname ov prior raws fi t1 g1).vods := by
    unfold runLoopResult
    refine runLoop_fix _ fi t2 _ hndS (normalizeAll raws) ?_ _ ?_
    · intro v hvmem
      obtain ⟨_, hm1⟩ := runLoop_char prior raws fi t1 H1 H2 hvmem
      have heid : (mergeSpec (mapGet (priorVods prior) v.id) v fi t1).id = v.id :=
        mergeSpec_id _ _ _ _
      have hel : mergeSpec (mapGet (priorVods prior) v.id) v fi t1
          ∈ (runLoopResult prior raws fi t1).mergedById := (mem_of_mapGet hm1).1
      have heS : mergeSpec (mapGet (priorVods prior) v.id) v fi t1
          ∈ (runMain BASE uname ov prior raws fi t1 g1).vods := by
        rw [hvods1]
        exact (sortVods_perm _).mem_iff.mpr hel
      refine ⟨mergeSpec (mapGet (priorVods prior) v.id) v fi t1,
        ?_, ?_, ?_, ?_⟩
      · have h5 := mapGet_of_mem hndS heS
        rw [heid] at h5
        exact h5
      · exact needsFileInfo_mergeSpec_false _ v fi t1 (HF v hvmem) Ht1
      · apply contains_eq_true_iff.mpr
        show v.id ∈ idsOf (runMain BASE uname ov prior raws fi t1 g1).vods
        rw [← heid]
        exact List.mem_map_of_mem (fun w => w.id) heS
      · exact keepMerge_mergeSpec _ v fi t1
    · exact seedList_eq_self hndS
  have hvods2 : (runMain BASE uname ov
      (some (runMain BASE uname ov prior raws fi t1 g1)) raws fi t2 g2).vods
      = (runMain BASE uname ov prior raws fi t1 g1).vods := by
    rw [runMain_vods, hfix, hvods1, sortVods_idem, ← hvods1]
  apply store_eq
  · exact hvods2
  · rfl
  · rfl
  · rfl
  · exact congrArg List.length hvods2

/-- Non-empty file_info response for the C4 witness. -/
def c4wfile : StoredFile :=
  { fileId := some "f", fileName := none, fileSizeRaw := none,
    fileSize := none, downloadUrl := none, contentType := none,
    metadata := [] }

theorem claim_C4_witness :
    runMain "b" "u" none
        (some (runMain "b" "u" none none [c4raw] (fun _ => [c4wfile])
          "t1" "g1"))
        [c4raw] (fun _ => [c4wfile]) "t2" "g2"
      = { runMain "b" "u" none none [c4raw] (fun _ => [c4wfile]) "t1" "g1"
          with
          meta := { (runMain "b" "u" none none [c4raw] (fun _ => [c4wfile])
              "t1" "g1").meta with generatedAt := "g2" } } :=
  claim_C4 "b" "u" none none [c4raw] (fun _ => [c4wfile]) "t1" "g1" "t2" "g2"
    (by decide) (by decide) (by decide) (by decide)

end Vault
